import Mathlib

/-!
Shallow embedding of the clickhouse-event-processor repository
(src/clickhouse_event_checker.py and src/config.py) and proofs about it.
-/

namespace ClickHouseEventProcessor

/-- Configuration.RETRIES from src/config.py. -/
def RETRIES : Nat := 10

/-- Configuration.DELAY from src/config.py. -/
def DELAY : Nat := 6

/-- The four requests.exceptions classes caught by EventProcessor.requests_call:
HTTPError, ConnectionError, Timeout, RequestException. -/
inductive ReqError where
  | httpError
  | connectionError
  | timeout
  | requestException
deriving DecidableEq, Repr

/-- Outcome of one attempt of requests.request followed by raise_for_status:
either the attempt succeeds, or raise_for_status raises HTTPError after the
loop variable r was assigned the response, or requests.request itself raises
and r keeps its previous value. Responses are abstracted as numbers. -/
inductive AttemptOutcome where
  | success (resp : Nat)
  | failWithResponse (resp : Nat) (e : ReqError)
  | failNoResponse (e : ReqError)
deriving DecidableEq, Repr

def AttemptOutcome.isSuccess : AttemptOutcome → Bool
  | .success _ => true
  | _ => false

/-- The error stored by the except branch handling an attempt
(none for a successful attempt). -/
def AttemptOutcome.failErr : AttemptOutcome → Option ReqError
  | .success _ => none
  | .failWithResponse _ e => some e
  | .failNoResponse e => some e

/-- The tuple returned by requests_call, together with the observable retry
trace: the number of attempts made and the list of sleep durations performed. -/
structure CallResult where
  resp : Option Nat
  error : Option ReqError
  attempts : Nat
  sleeps : List Nat
deriving DecidableEq, Repr

/-- The loop `for retry in range(retries)` of EventProcessor.requests_call:
remaining counts the iterations left, retry is the loop index, r and error are
the loop-carried variables of the source (note: the source never resets error
to None when a later attempt succeeds), attempts and sleeps record the trace.
Every except branch logs, stores the error, sleeps delay and continues; the
success branch returns (r, error) at once; falling off the loop returns
(r, error). -/
def requestsCallAux (oracle : Nat → AttemptOutcome) (delay : Nat) :
    Nat → Nat → Option Nat → Option ReqError → Nat → List Nat → CallResult
  | 0, _, r, error, attempts, sleeps => ⟨r, error, attempts, sleeps⟩
  | remaining + 1, retry, r, error, attempts, sleeps =>
    match oracle retry with
    | .success resp => ⟨some resp, error, attempts + 1, sleeps⟩
    | .failWithResponse resp e =>
        requestsCallAux oracle delay remaining (retry + 1) (some resp) (some e)
          (attempts + 1) (sleeps ++ [delay])
    | .failNoResponse e =>
        requestsCallAux oracle delay remaining (retry + 1) r (some e)
          (attempts + 1) (sleeps ++ [delay])

/-- EventProcessor.requests_call: the outcome of attempt number i is supplied
by `oracle i`. Returns the final (r, error) pair and the retry trace. -/
def requests_call (oracle : Nat → AttemptOutcome) (retries delay : Nat) : CallResult :=
  requestsCallAux oracle delay retries 0 none none 0 []

/-- The value of the loop variable r as maintained by the retry loop, starting
from value r at loop index retry with `remaining` iterations left; it is none
or the response of the last attempt that produced one. -/
def loopResp (oracle : Nat → AttemptOutcome) : Nat → Nat → Option Nat → Option Nat
  | 0, _, r => r
  | remaining + 1, retry, r =>
    match oracle retry with
    | .success resp => some resp
    | .failWithResponse resp _ => loopResp oracle remaining (retry + 1) (some resp)
    | .failNoResponse _ => loopResp oracle remaining (retry + 1) r

lemma AttemptOutcome.failErr_isSome {o : AttemptOutcome} (h : o.isSuccess = false) :
    ∃ e, o.failErr = some e := by
  cases o with
  | success resp => simp [AttemptOutcome.isSuccess] at h
  | failWithResponse resp e => exact ⟨e, rfl⟩
  | failNoResponse e => exact ⟨e, rfl⟩

lemma requestsCallAux_resp (oracle : Nat → AttemptOutcome) (delay : Nat) :
    ∀ remaining retry r error attempts sleeps,
      (requestsCallAux oracle delay remaining retry r error attempts sleeps).resp
        = loopResp oracle remaining retry r := by
  intro remaining
  induction remaining with
  | zero => intro retry r error attempts sleeps; rfl
  | succ k ih =>
    intro retry r error attempts sleeps
    simp only [requestsCallAux, loopResp]
    cases oracle retry with
    | success resp => rfl
    | failWithResponse resp e => exact ih (retry + 1) (some resp) (some e) _ _
    | failNoResponse e => exact ih (retry + 1) r (some e) _ _

lemma requestsCallAux_all_fail (oracle : Nat → AttemptOutcome) (delay : Nat) :
    ∀ remaining retry r error attempts sleeps,
      (∀ i, i < remaining → (oracle (retry + i)).isSuccess = false) →
      (requestsCallAux oracle delay remaining retry r error attempts sleeps).attempts
          = attempts + remaining ∧
      (requestsCallAux oracle delay remaining retry r error attempts sleeps).sleeps
          = sleeps ++ List.replicate remaining delay ∧
      (requestsCallAux oracle delay remaining retry r error attempts sleeps).error
          = (if remaining = 0 then error else (oracle (retry + remaining - 1)).failErr) := by
  intro remaining
  induction remaining with
  | zero =>
    intro retry r error attempts sleeps _
    simp [requestsCallAux]
  | succ k ih =>
    intro retry r error attempts sleeps h
    have h0 : (oracle retry).isSuccess = false := by
      have := h 0 (Nat.succ_pos k); simpa using this
    have hrest : ∀ i, i < k → (oracle (retry + 1 + i)).isSuccess = false := by
      intro i hi
      have := h (i + 1) (Nat.succ_lt_succ hi)
      have harith : retry + 1 + i = retry + (i + 1) := by omega
      rw [harith]; exact this
    simp only [requestsCallAux]
    cases hor : oracle retry with
    | success resp =>
      rw [hor] at h0; simp [AttemptOutcome.isSuccess] at h0
    | failWithResponse resp e =>
      obtain ⟨ha, hs, he⟩ := ih (retry + 1) (some resp) (some e) (attempts + 1)
        (sleeps ++ [delay]) hrest
      refine ⟨by rw [ha]; omega, ?_, ?_⟩
      · rw [hs, List.append_assoc]
        congr 1
      · rw [he]
        cases k with
        | zero => simp [hor, AttemptOutcome.failErr]
        | succ m =>
          have h1 : ¬ (m + 1 = 0) := by omega
          have h2 : ¬ (m + 1 + 1 = 0) := by omega
          simp only [h1, h2, if_false]
          congr 2
          omega
    | failNoResponse e =>
      obtain ⟨ha, hs, he⟩ := ih (retry + 1) r (some e) (attempts + 1)
        (sleeps ++ [delay]) hrest
      refine ⟨by rw [ha]; omega, ?_, ?_⟩
      · rw [hs, List.append_assoc]
        congr 1
      · rw [he]
        cases k with
        | zero => simp [hor, AttemptOutcome.failErr]
        | succ m =>
          have h1 : ¬ (m + 1 = 0) := by omega
          have h2 : ¬ (m + 1 + 1 = 0) := by omega
          simp only [h1, h2, if_false]
          congr 2
          omega

lemma requestsCallAux_first_success (oracle : Nat → AttemptOutcome) (delay : Nat) :
    ∀ remaining i retry r error attempts sleeps,
      i < remaining →
      (oracle (retry + i)).isSuccess = true →
      (∀ j, j < i → (oracle (retry + j)).isSuccess = false) →
      ∃ resp, oracle (retry + i) = .success resp ∧
        (requestsCallAux oracle delay remaining retry r error attempts sleeps).resp
          = some resp ∧
        (requestsCallAux oracle delay remaining retry r error attempts sleeps).error
          = (if i = 0 then error else (oracle (retry + i - 1)).failErr) := by
  intro remaining
  induction remaining with
  | zero => intro i retry r error attempts sleeps hi; omega
  | succ k ih =>
    intro i retry r error attempts sleeps hi hsucc hprev
    cases i with
    | zero =>
      simp only [Nat.add_zero] at hsucc
      cases hor : oracle retry with
      | success resp =>
        refine ⟨resp, by simpa using hor, ?_, ?_⟩
        · simp [requestsCallAux, hor]
        · simp [requestsCallAux, hor]
      | failWithResponse resp e => rw [hor] at hsucc; simp [AttemptOutcome.isSuccess] at hsucc
      | failNoResponse e => rw [hor] at hsucc; simp [AttemptOutcome.isSuccess] at hsucc
    | succ m =>
      have h0 : (oracle retry).isSuccess = false := by
        have := hprev 0 (Nat.succ_pos m); simpa using this
      have hsucc1 : (oracle (retry + 1 + m)).isSuccess = true := by
        have harith : retry + 1 + m = retry + (m + 1) := by omega
        rw [harith]; exact hsucc
      have hprev1 : ∀ j, j < m → (oracle (retry + 1 + j)).isSuccess = false := by
        intro j hj
        have := hprev (j + 1) (Nat.succ_lt_succ hj)
        have harith : retry + 1 + j = retry + (j + 1) := by omega
        rw [harith]; exact this
      have hm : m < k := by omega
      simp only [requestsCallAux]
      cases hor : oracle retry with
      | success resp =>
        rw [hor] at h0; simp [AttemptOutcome.isSuccess] at h0
      | failWithResponse resp e =>
        obtain ⟨rsp, ho, hr, he⟩ := ih m (retry + 1) (some resp) (some e) (attempts + 1)
          (sleeps ++ [delay]) hm hsucc1 hprev1
        refine ⟨rsp, ?_, hr, ?_⟩
        · have harith : retry + 1 + m = retry + (m + 1) := by omega
          rw [harith] at ho; exact ho
        · rw [he]
          cases m with
          | zero => simp [hor, AttemptOutcome.failErr]
          | succ n =>
            have h1 : ¬ (n + 1 = 0) := by omega
            have h2 : ¬ (n + 1 + 1 = 0) := by omega
            simp only [h1, h2, if_false]
            congr 2
            omega
      | failNoResponse e =>
        obtain ⟨rsp, ho, hr, he⟩ := ih m (retry + 1) r (some e) (attempts + 1)
          (sleeps ++ [delay]) hm hsucc1 hprev1
        refine ⟨rsp, ?_, hr, ?_⟩
        · have harith : retry + 1 + m = retry + (m + 1) := by omega
          rw [harith] at ho; exact ho
        · rw [he]
          cases m with
          | zero => simp [hor, AttemptOutcome.failErr]
          | succ n =>
            have h1 : ¬ (n + 1 = 0) := by omega
            have h2 : ¬ (n + 1 + 1 = 0) := by omega
            simp only [h1, h2, if_false]
            congr 2
            omega


/-- C1: against a target whose every attempt raises one of the four caught
request exceptions, requests_call attempts the request exactly RETRIES
(configured, default 10) times, and every failed attempt is followed by a
sleep of the configured DELAY (default 6) — in particular a sleep of DELAY
separates any two consecutive attempts — and the tuple it finally returns
carries a non-None error in its second component. -/
theorem c1_retry_bound (oracle : Nat → AttemptOutcome)
    (h : ∀ i, i < RETRIES → (oracle i).isSuccess = false) :
    (requests_call oracle RETRIES DELAY).attempts = RETRIES ∧
    (requests_call oracle RETRIES DELAY).sleeps = List.replicate RETRIES DELAY ∧
    (requests_call oracle RETRIES DELAY).error ≠ none ∧
    RETRIES = 10 ∧ DELAY = 6 := by
  have h' : ∀ i, i < RETRIES → (oracle (0 + i)).isSuccess = false := by
    intro i hi; simpa using h i hi
  obtain ⟨ha, hs, he⟩ := requestsCallAux_all_fail oracle DELAY RETRIES 0 none none 0 [] h'
  have hlast : (oracle (RETRIES - 1)).isSuccess = false := h (RETRIES - 1) (by decide)
  obtain ⟨e, hev⟩ := AttemptOutcome.failErr_isSome hlast
  have hne : ¬ (RETRIES = 0) := by decide
  refine ⟨by simpa [requests_call] using ha, by simpa [requests_call] using hs, ?_, rfl, rfl⟩
  simp only [requests_call]
  rw [he]
  simp [hne, hev]

/-- Witness for c1_retry_bound at the concrete always-timing-out target. -/
theorem c1_retry_bound_witness :
    (requests_call (fun _ => .failNoResponse .timeout) RETRIES DELAY).attempts = RETRIES ∧
    (requests_call (fun _ => .failNoResponse .timeout) RETRIES DELAY).sleeps
      = List.replicate RETRIES DELAY ∧
    (requests_call (fun _ => .failNoResponse .timeout) RETRIES DELAY).error ≠ none ∧
    RETRIES = 10 ∧ DELAY = 6 :=
  c1_retry_bound (fun _ => .failNoResponse .timeout) (fun _ _ => rfl)

/-- The attempt sequence refuting C2 as stated: the first attempt raises
ConnectionError, every later attempt succeeds with response 200. -/
def c2Oracle : Nat → AttemptOutcome :=
  fun i => if i = 0 then .failNoResponse .connectionError else .success 200

/-- C2 is false as stated: on this invocation the second attempt succeeds and
its response is returned, yet the error component of the returned tuple is the
stale ConnectionError raised by the first attempt, not None — the source never
resets the error variable when a later attempt succeeds. -/
theorem c2_counterexample :
    (c2Oracle 1).isSuccess = true ∧
    (requests_call c2Oracle RETRIES DELAY).resp = some 200 ∧
    (requests_call c2Oracle RETRIES DELAY).error = some ReqError.connectionError :=
  ⟨rfl, rfl, rfl⟩

/-- C2 (amended): when attempt i is the first successful attempt, requests_call
returns the response of attempt i, and its error component is None when i = 0
but is the stale error of attempt i - 1 when failures preceded the success;
when all attempts fail, it returns the final value of the loop variable r
(None, or the last response assigned by a failing attempt) together with the
non-None error of the last attempt. -/
theorem c2_return_contract (oracle : Nat → AttemptOutcome) (retries delay : Nat) :
    (∀ i, i < retries → (oracle i).isSuccess = true →
      (∀ j, j < i → (oracle j).isSuccess = false) →
      ∃ resp, oracle i = .success resp ∧
        (requests_call oracle retries delay).resp = some resp ∧
        (requests_call oracle retries delay).error
          = (if i = 0 then none else (oracle (i - 1)).failErr)) ∧
    ((∀ i, i < retries → (oracle i).isSuccess = false) → 0 < retries →
      (requests_call oracle retries delay).resp = loopResp oracle retries 0 none ∧
      (requests_call oracle retries delay).error = (oracle (retries - 1)).failErr ∧
      (requests_call oracle retries delay).error ≠ none) := by
  constructor
  · intro i hi hsucc hprev
    have hsucc' : (oracle (0 + i)).isSuccess = true := by simpa using hsucc
    have hprev' : ∀ j, j < i → (oracle (0 + j)).isSuccess = false := by
      intro j hj; simpa using hprev j hj
    obtain ⟨resp, ho, hr, he⟩ := requestsCallAux_first_success oracle delay retries i 0
      none none 0 [] hi hsucc' hprev'
    simp only [requests_call]
    exact ⟨resp, by simpa using ho, hr, by simpa using he⟩
  · intro hall hpos
    have hall' : ∀ i, i < retries → (oracle (0 + i)).isSuccess = false := by
      intro i hi; simpa using hall i hi
    obtain ⟨ha, hs, he⟩ := requestsCallAux_all_fail oracle delay retries 0 none none 0 [] hall'
    have hlast : (oracle (retries - 1)).isSuccess = false := hall (retries - 1) (by omega)
    obtain ⟨e, hev⟩ := AttemptOutcome.failErr_isSome hlast
    have hne : ¬ (retries = 0) := by omega
    simp only [requests_call]
    refine ⟨requestsCallAux_resp oracle delay retries 0 none none 0 [], ?_, ?_⟩
    · rw [he]; simp [hne]
    · rw [he]; simp [hne, hev]

/-- Witness for c2_return_contract at the concrete oracle whose first attempt
fails and whose second attempt succeeds. -/
theorem c2_return_contract_witness :
    ∃ resp, c2Oracle 1 = AttemptOutcome.success resp ∧
      (requests_call c2Oracle RETRIES DELAY).resp = some resp ∧
      (requests_call c2Oracle RETRIES DELAY).error
        = (if (1 : Nat) = 0 then none else (c2Oracle 0).failErr) :=
  (c2_return_contract c2Oracle RETRIES DELAY).1 1 (by decide) (by decide)
    (fun j hj => by
      have hj0 : j = 0 := by omega
      subst hj0; rfl)


/-- A row of the sqlite cache table cachetab: columns date (insertion date),
event_time, event_name, af_sub1; the auto id column is immaterial to the logic
and omitted. Times are abstracted as natural numbers of seconds. -/
structure CacheRow where
  date : Nat
  event_time : Nat
  event_name : String
  af_sub1 : String
deriving DecidableEq, Repr

/-- EventProcessor.save_trials_to_db: SELECT the rows with the given af_sub1;
when the result set is empty the new row (dated now) is inserted and
committed, otherwise nothing is inserted and the skip is logged. The Bool
output records whether the already-in-db skip branch was taken. -/
def save_trials_to_db (now event_time : Nat) (event_name af_sub1 : String)
    (cache : List CacheRow) : List CacheRow × Bool :=
  if (cache.filter (fun r => r.af_sub1 == af_sub1)).length = 0 then
    (cache ++ [⟨now, event_time, event_name, af_sub1⟩], false)
  else
    (cache, true)

/-- EventProcessor.remove_trials_from_db: DELETE FROM cachetab WHERE af_sub1
equals the given value. -/
def remove_trials_from_db (af_sub1 : String) (cache : List CacheRow) : List CacheRow :=
  cache.filter (fun r => !(r.af_sub1 == af_sub1))

/-- One hour in seconds: the confirmation delay used by get_trials_from_db. -/
def HOUR : Nat := 3600

/-- EventProcessor.get_trials_from_db: SELECT the cached rows whose event_name
is af_start_trial and whose event_time is at most now minus one hour (written
additively to avoid truncated subtraction). -/
def get_trials_from_db (now : Nat) (cache : List CacheRow) : List CacheRow :=
  cache.filter (fun r =>
    r.event_name == "af_start_trial" && decide (r.event_time + HOUR ≤ now))

/-- One outbound GET to cfg.BASE_URL as issued by the request helpers: cnv_id
identifies the subscriber, cnv_status the status word, flag the eventN
parameter that is set to 1. -/
structure TrackingCall where
  cnv_id : String
  cnv_status : String
  flag : String
deriving DecidableEq, Repr

/-- The (response, error) pair a requests_call invocation hands back to the
forwarder, as a function of the parameters of the call. -/
abbrev HttpOracle := TrackingCall → Option Nat × Option ReqError

/-- A row of the fetched events DataFrame: columns event_time, event_name,
af_sub1. -/
structure EventRow where
  event_time : Nat
  event_name : String
  af_sub1 : String
deriving DecidableEq, Repr

/-- The self.install working set of EventProcessor. -/
def installOf (df : List EventRow) : List EventRow :=
  df.filter (fun r => r.event_name == "install")

/-- The self.trial working set of EventProcessor. -/
def trialOf (df : List EventRow) : List EventRow :=
  df.filter (fun r => r.event_name == "af_start_trial")

/-- The self.trial_cancelled working set of EventProcessor. -/
def trialCancelledOf (df : List EventRow) : List EventRow :=
  df.filter (fun r => r.event_name == "trial_renewal_cancelled")

/-- The self.activation working set of EventProcessor. -/
def activationOf (df : List EventRow) : List EventRow :=
  df.filter (fun r => r.event_name == "af_subscribe")

/-- The GET parameters sent by install_requests for one subscriber. -/
def installCall (s : String) : TrackingCall := ⟨s, "install", "event1"⟩

/-- The GET parameters sent for a trial by confirmed_trial_requests (and by
the uncalled trial_requests). -/
def trialCall (s : String) : TrackingCall := ⟨s, "trial_started", "event2"⟩

/-- The GET parameters sent by activation_requests for one subscriber. -/
def activationCall (s : String) : TrackingCall := ⟨s, "trial_converted", "event4"⟩

/-- EventProcessor.install_requests: one GET per install row; responses and
errors are discarded. Returns the calls issued, in order. -/
def install_requests (install : List EventRow) : List TrackingCall :=
  if install.isEmpty then [] else install.map (fun r => installCall r.af_sub1)

/-- EventProcessor.activation_requests: one GET per af_subscribe row;
responses and errors are discarded. Returns the calls issued, in order. -/
def activation_requests (activation : List EventRow) : List TrackingCall :=
  if activation.isEmpty then [] else activation.map (fun r => activationCall r.af_sub1)

/-- EventProcessor.process_new_trials: saves every af_start_trial row to the
cache db. -/
def process_new_trials (now : Nat) (trial : List EventRow)
    (cache : List CacheRow) : List CacheRow :=
  if trial.isEmpty then cache
  else trial.foldl
    (fun c r => (save_trials_to_db now r.event_time r.event_name r.af_sub1 c).1) cache

/-- EventProcessor.process_cancelled_trials: removes every cancelled row from
the cache db by its af_sub1. -/
def process_cancelled_trials (cancelled : List EventRow)
    (cache : List CacheRow) : List CacheRow :=
  if cancelled.isEmpty then cache
  else cancelled.foldl (fun c r => remove_trials_from_db r.af_sub1 c) cache

/-- The loop of EventProcessor.confirmed_trial_requests over the af_sub1
column of the selected rows: issue the GET; when the returned error is not
None, log it and continue with the next entry; otherwise delete the processed
trial from the cache db. -/
def confirmLoop (http : HttpOracle) :
    List String → List CacheRow → List TrackingCall → List CacheRow × List TrackingCall
  | [], cache, calls => (cache, calls)
  | s :: rest, cache, calls =>
    if (http (trialCall s)).2 ≠ none then
      confirmLoop http rest cache (calls ++ [trialCall s])
    else
      confirmLoop http rest (remove_trials_from_db s cache) (calls ++ [trialCall s])

/-- EventProcessor.confirmed_trial_requests: select the settled trials from
the cache db, return at once when there are none, otherwise forward each and
delete the ones whose forward came back without error. -/
def confirmed_trial_requests (now : Nat) (http : HttpOracle)
    (cache : List CacheRow) : List CacheRow × List TrackingCall :=
  let df := get_trials_from_db now cache
  if df.isEmpty then (cache, [])
  else confirmLoop http (df.map (fun r => r.af_sub1)) cache []

/-- Observable outcome of the forwarder part of one run of main: the final
cache db and the outbound calls issued, in order. -/
structure RunResult where
  cache : List CacheRow
  calls : List TrackingCall
deriving DecidableEq, Repr

/-- The forwarder part of main: when the fetched DataFrame is non-empty, an
EventProcessor partitions it and runs install_requests, activation_requests,
process_new_trials, process_cancelled_trials and confirmed_trial_requests in
that order; when it is empty nothing happens. -/
def main_run (now : Nat) (http : HttpOracle) (df : List EventRow)
    (cache0 : List CacheRow) : RunResult :=
  if df.isEmpty then ⟨cache0, []⟩
  else
    ⟨(confirmed_trial_requests now http
        (process_cancelled_trials (trialCancelledOf df)
          (process_new_trials now (trialOf df) cache0))).1,
      install_requests (installOf df) ++ activation_requests (activationOf df) ++
        (confirmed_trial_requests now http
          (process_cancelled_trials (trialCancelledOf df)
            (process_new_trials now (trialOf df) cache0))).2⟩

/-- A row of analytics.appsflyer_export as relevant to the two queries of
ClickHouseConnector. -/
structure WarehouseRow where
  event_time : Nat
  event_name : String
  af_sub1 : String
  media_source : String
deriving DecidableEq, Repr

/-- The WHERE clause shared by query_cnt and query_str. -/
def matchesFilter (r : WarehouseRow) : Bool :=
  r.media_source == "Popunder" &&
    (r.event_name == "install" || r.event_name == "af_start_trial" ||
     r.event_name == "af_subscribe" || r.event_name == "trial_renewal_cancelled")

/-- Projection of a warehouse row to the three columns selected by
query_str. -/
def WarehouseRow.toEventRow (r : WarehouseRow) : EventRow :=
  ⟨r.event_time, r.event_name, r.af_sub1⟩

/-- Insertion step realizing the ORDER BY event_time DESC ordering of
query_str. -/
def insertByTimeDesc (r : WarehouseRow) : List WarehouseRow → List WarehouseRow
  | [] => [r]
  | x :: xs =>
    if x.event_time ≤ r.event_time then r :: x :: xs else x :: insertByTimeDesc r xs

/-- ORDER BY event_time DESC of query_str. -/
def sortByTimeDesc (l : List WarehouseRow) : List WarehouseRow :=
  l.foldr insertByTimeDesc []

/-- Result of ClickHouseConnector.fetch_new_events: the rows of the returned
DataFrame, the content of the watermark file var_storage.json after the run,
and whether that file was written. -/
structure FetchResult where
  df : List EventRow
  watermark : Nat
  written : Bool
deriving DecidableEq, Repr

/-- ClickHouseConnector.fetch_new_events: run query_cnt (count the matching
warehouse rows) and subtract the persisted prev_rows_number; when the
difference is zero return an empty DataFrame without touching the watermark
file; when it is positive run query_str (the matching rows ordered by
event_time DESC, limited to the difference) and then overwrite the watermark
file with the new count; a negative difference makes query_str raise on the
negative LIMIT, modelled as none — the exception propagates unhandled and
nothing is returned or written. -/
def fetch_new_events (warehouse : List WarehouseRow) (prev_rows_number : Nat) :
    Option FetchResult :=
  let cnt := (warehouse.filter matchesFilter).length
  if cnt = prev_rows_number then some ⟨[], prev_rows_number, false⟩
  else if prev_rows_number < cnt then
    some ⟨((sortByTimeDesc (warehouse.filter matchesFilter)).take
        (cnt - prev_rows_number)).map WarehouseRow.toEventRow, cnt, true⟩
  else none

/-- The cache states reachable from the empty table through the two mutating
operations of the source: save_trials_to_db (reached via process_new_trials)
and remove_trials_from_db (reached via process_cancelled_trials and
confirmed_trial_requests). -/
inductive Reachable : List CacheRow → Prop where
  | empty : Reachable []
  | save (now event_time : Nat) (event_name af_sub1 : String) {c : List CacheRow} :
      Reachable c → Reachable (save_trials_to_db now event_time event_name af_sub1 c).1
  | remove (af_sub1 : String) {c : List CacheRow} :
      Reachable c → Reachable (remove_trials_from_db af_sub1 c)


lemma length_filter_and_le (p q : CacheRow → Bool) (c : List CacheRow) :
    (c.filter (fun r => p r && q r)).length ≤ (c.filter p).length := by
  induction c with
  | nil => simp
  | cons x xs ih =>
    cases hp : p x <;> cases hq : q x <;>
      simp [List.filter_cons, hp, hq] <;> omega

lemma reachable_at_most_one {c : List CacheRow} (h : Reachable c) (sub : String) :
    (c.filter (fun r => r.af_sub1 == sub)).length ≤ 1 := by
  induction h with
  | empty => simp
  | save now et en s hc ih =>
    rename_i c0
    by_cases hcheck : (c0.filter (fun r => r.af_sub1 == s)).length = 0
    · rw [save_trials_to_db, if_pos hcheck]
      simp only [List.filter_append]
      by_cases hss : s = sub
      · subst hss
        have hnil : c0.filter (fun r => r.af_sub1 == s) = [] :=
          List.length_eq_zero.mp hcheck
        simp [hnil]
      · have : ((⟨now, et, en, s⟩ : CacheRow).af_sub1 == sub) = false := by
          simp [hss]
        simp [List.filter_cons, this]
        simpa using ih
    · rw [save_trials_to_db, if_neg hcheck]
      exact ih
  | remove s hc ih =>
    rename_i c0
    calc ((remove_trials_from_db s c0).filter (fun r => r.af_sub1 == sub)).length
        ≤ (c0.filter (fun r => r.af_sub1 == sub)).length := by
          apply List.Sublist.length_le
          exact List.Sublist.filter _ (List.filter_sublist c0)
      _ ≤ 1 := ih

lemma save_skips_of_mem {c : List CacheRow} {sub : String}
    (h : ∃ r ∈ c, r.af_sub1 = sub) (now et : Nat) (en : String) :
    save_trials_to_db now et en sub c = (c, true) := by
  obtain ⟨r, hr, hsub⟩ := h
  have hmem : r ∈ c.filter (fun x => x.af_sub1 == sub) := by
    simp [List.mem_filter, hr, hsub]
  have hne : (c.filter (fun x => x.af_sub1 == sub)).length ≠ 0 := by
    intro h0
    rw [List.length_eq_zero] at h0
    simp [h0] at hmem
  rw [save_trials_to_db, if_neg hne]

/-- C5: in every cache state reachable through the operations of the source,
every (subscriber, event name) pair has at most one row; and calling
save_trials_to_db for a subscriber already present in the cache leaves the
cache unchanged and takes the logged-as-skip branch. -/
theorem c5_dedup_invariant (c : List CacheRow) (h : Reachable c) :
    (∀ sub name,
      (c.filter (fun r => r.af_sub1 == sub && r.event_name == name)).length ≤ 1) ∧
    (∀ now et en sub, (∃ r ∈ c, r.af_sub1 = sub) →
      save_trials_to_db now et en sub c = (c, true)) := by
  constructor
  · intro sub name
    calc (c.filter (fun r => r.af_sub1 == sub && r.event_name == name)).length
        ≤ (c.filter (fun r => r.af_sub1 == sub)).length :=
          length_filter_and_le _ _ c
      _ ≤ 1 := reachable_at_most_one h sub
  · intro now et en sub hex
    exact save_skips_of_mem hex now et en

/-- Witness for c5_dedup_invariant at the reachable state holding one saved
trial. -/
theorem c5_dedup_invariant_witness :
    (∀ sub name,
      (((save_trials_to_db 5 1 "af_start_trial" "s1" []).1).filter
        (fun r => r.af_sub1 == sub && r.event_name == name)).length ≤ 1) ∧
    (∀ now et en sub,
      (∃ r ∈ (save_trials_to_db 5 1 "af_start_trial" "s1" []).1, r.af_sub1 = sub) →
      save_trials_to_db now et en sub (save_trials_to_db 5 1 "af_start_trial" "s1" []).1
        = ((save_trials_to_db 5 1 "af_start_trial" "s1" []).1, true)) :=
  c5_dedup_invariant _ (Reachable.save 5 1 "af_start_trial" "s1" Reachable.empty)

/-- C10: the duplicate check of save_trials_to_db matches on af_sub1 alone and
ignores event_name — an insert for a subscriber who already has any cache row,
whatever that row names as its event, is skipped with the cache unchanged —
and every reachable cache state holds at most one row per subscriber. -/
theorem c10_per_subscriber_invariant (c : List CacheRow) (h : Reachable c) :
    (∀ sub, (c.filter (fun r => r.af_sub1 == sub)).length ≤ 1) ∧
    (∀ now et en r, r ∈ c →
      save_trials_to_db now et en r.af_sub1 c = (c, true)) := by
  constructor
  · exact reachable_at_most_one h
  · intro now et en r hr
    exact save_skips_of_mem ⟨r, hr, rfl⟩ now et en

/-- Witness for c10_per_subscriber_invariant at the reachable state holding
one saved row whose event name differs from the incoming insert. -/
theorem c10_per_subscriber_invariant_witness :
    (∀ sub, (((save_trials_to_db 7 2 "install" "s2" []).1).filter
      (fun r => r.af_sub1 == sub)).length ≤ 1) ∧
    (∀ now et en r, r ∈ (save_trials_to_db 7 2 "install" "s2" []).1 →
      save_trials_to_db now et en r.af_sub1 (save_trials_to_db 7 2 "install" "s2" []).1
        = ((save_trials_to_db 7 2 "install" "s2" []).1, true)) :=
  c10_per_subscriber_invariant _ (Reachable.save 7 2 "install" "s2" Reachable.empty)

/-- C6: remove_trials_from_db deletes every row carrying the given af_sub1,
regardless of its event_name, and leaves the rows of every other subscriber
unchanged, order and multiplicity included. -/
theorem c6_remove_scope (sub : String) (c : List CacheRow) :
    (∀ r, r ∈ remove_trials_from_db sub c ↔ (r ∈ c ∧ r.af_sub1 ≠ sub)) ∧
    (∀ s, s ≠ sub →
      (remove_trials_from_db sub c).filter (fun r => r.af_sub1 == s)
        = c.filter (fun r => r.af_sub1 == s)) := by
  constructor
  · intro r
    simp [remove_trials_from_db, List.mem_filter]
  · intro s hs
    induction c with
    | nil => rfl
    | cons x xs ih =>
      by_cases hx : x.af_sub1 = sub
      · have h1 : remove_trials_from_db sub (x :: xs) = remove_trials_from_db sub xs := by
          simp [remove_trials_from_db, List.filter_cons, hx]
        have hp : (x.af_sub1 == s) = false := by
          rw [hx]
          simp only [beq_eq_false_iff_ne, ne_eq]
          intro heq
          exact hs heq.symm
        have h2 : (x :: xs).filter (fun r => r.af_sub1 == s)
            = xs.filter (fun r => r.af_sub1 == s) := by
          simp [List.filter_cons, hp]
        rw [h1, h2]
        exact ih
      · have h1 : remove_trials_from_db sub (x :: xs)
            = x :: remove_trials_from_db sub xs := by
          simp [remove_trials_from_db, List.filter_cons, hx]
        rw [h1]
        by_cases hxs : x.af_sub1 = s
        · have hp : (x.af_sub1 == s) = true := by simp [hxs]
          simp only [List.filter_cons, hp, if_true]
          rw [ih]
        · have hp : (x.af_sub1 == s) = false := by simp [hxs]
          simp only [List.filter_cons, hp, Bool.false_eq_true, if_false]
          exact ih

/-- Witness for c6_remove_scope on a two-row cache. -/
theorem c6_remove_scope_witness :
    ((⟨0, 0, "install", "s2"⟩ : CacheRow)
        ∈ remove_trials_from_db "s1"
          [⟨0, 1, "af_start_trial", "s1"⟩, ⟨0, 0, "install", "s2"⟩] ↔
      ((⟨0, 0, "install", "s2"⟩ : CacheRow)
          ∈ [(⟨0, 1, "af_start_trial", "s1"⟩ : CacheRow), ⟨0, 0, "install", "s2"⟩] ∧
        (⟨0, 0, "install", "s2"⟩ : CacheRow).af_sub1 ≠ "s1")) ∧
    (remove_trials_from_db "s1"
        [⟨0, 1, "af_start_trial", "s1"⟩, ⟨0, 0, "install", "s2"⟩]).filter
        (fun r => r.af_sub1 == "s2")
      = ([⟨0, 1, "af_start_trial", "s1"⟩, ⟨0, 0, "install", "s2"⟩] :
          List CacheRow).filter (fun r => r.af_sub1 == "s2") :=
  ⟨(c6_remove_scope "s1" [⟨0, 1, "af_start_trial", "s1"⟩, ⟨0, 0, "install", "s2"⟩]).1
      ⟨0, 0, "install", "s2"⟩,
   (c6_remove_scope "s1" [⟨0, 1, "af_start_trial", "s1"⟩, ⟨0, 0, "install", "s2"⟩]).2
      "s2" (by decide)⟩


lemma length_insertByTimeDesc (r : WarehouseRow) (l : List WarehouseRow) :
    (insertByTimeDesc r l).length = l.length + 1 := by
  induction l with
  | nil => rfl
  | cons x xs ih =>
    simp only [insertByTimeDesc]
    split
    · simp
    · simp [ih]

lemma length_sortByTimeDesc (l : List WarehouseRow) :
    (sortByTimeDesc l).length = l.length := by
  induction l with
  | nil => rfl
  | cons x xs ih =>
    simp only [sortByTimeDesc, List.foldr_cons]
    rw [length_insertByTimeDesc]
    simp only [sortByTimeDesc] at ih
    simp [ih]

/-- C7: when the matching warehouse row count equals the persisted watermark,
fetch_new_events returns an empty DataFrame and leaves the watermark file
unwritten; and in every completing run the watermark file is written exactly
when the returned DataFrame is non-empty — overwritten with the new count when
written, still holding the previous value when not. -/
theorem c7_watermark (warehouse : List WarehouseRow) (prev : Nat) :
    ((warehouse.filter matchesFilter).length = prev →
      fetch_new_events warehouse prev = some ⟨[], prev, false⟩) ∧
    (∀ res, fetch_new_events warehouse prev = some res →
      (res.written = true ↔ res.df ≠ []) ∧
      (res.written = true →
        res.watermark = (warehouse.filter matchesFilter).length) ∧
      (res.written = false → res.watermark = prev)) := by
  constructor
  · intro h
    simp [fetch_new_events, h]
  · intro res hres
    by_cases h0 : (warehouse.filter matchesFilter).length = prev
    · rw [fetch_new_events] at hres
      simp only [h0, if_pos rfl] at hres
      cases hres
      refine ⟨by simp, by simp, fun _ => rfl⟩
    · by_cases h1 : prev < (warehouse.filter matchesFilter).length
      · rw [fetch_new_events] at hres
        simp only [if_neg h0, if_pos h1] at hres
        cases hres
        refine ⟨?_, fun _ => rfl, by simp⟩
        simp only [true_iff]
        have hlen : ((sortByTimeDesc (warehouse.filter matchesFilter)).take
            ((warehouse.filter matchesFilter).length - prev)).length
            = (warehouse.filter matchesFilter).length - prev := by
          rw [List.length_take, length_sortByTimeDesc]
          omega
        intro hnil
        have : ((sortByTimeDesc (warehouse.filter matchesFilter)).take
            ((warehouse.filter matchesFilter).length - prev)).map
              WarehouseRow.toEventRow = [] := hnil
        rw [List.map_eq_nil_iff] at this
        rw [this] at hlen
        simp at hlen
        omega
      · rw [fetch_new_events] at hres
        simp only [if_neg h0, if_neg h1] at hres
        cases hres

/-- Witness for c7_watermark: an unchanged empty warehouse yields the empty
fetch with the watermark untouched. -/
theorem c7_watermark_witness :
    fetch_new_events [] 0 = some ⟨[], 0, false⟩ ∧
    ((⟨[], 0, false⟩ : FetchResult).written = true ↔
      (⟨[], 0, false⟩ : FetchResult).df ≠ []) :=
  ⟨(c7_watermark [] 0).1 rfl,
   ((c7_watermark [] 0).2 ⟨[], 0, false⟩ ((c7_watermark [] 0).1 rfl)).1⟩


lemma confirmLoop_calls (http : HttpOracle) :
    ∀ subs cache calls,
      (confirmLoop http subs cache calls).2 = calls ++ subs.map trialCall := by
  intro subs
  induction subs with
  | nil => intro cache calls; simp [confirmLoop]
  | cons s rest ih =>
    intro cache calls
    simp only [confirmLoop]
    split
    · rw [ih]; simp
    · rw [ih]; simp

lemma confirmLoop_mem (http : HttpOracle) :
    ∀ subs cache calls r,
      r ∈ (confirmLoop http subs cache calls).1 ↔
        (r ∈ cache ∧ ∀ s ∈ subs, (http (trialCall s)).2 = none → r.af_sub1 ≠ s) := by
  intro subs
  induction subs with
  | nil => intro cache calls r; simp [confirmLoop]
  | cons s rest ih =>
    intro cache calls r
    simp only [confirmLoop]
    by_cases h : (http (trialCall s)).2 = none
    · rw [if_neg (not_not_intro h)]
      rw [ih]
      constructor
      · rintro ⟨hr, hrest⟩
        have hr' := List.mem_filter.mp hr
        have hne : r.af_sub1 ≠ s := by
          have := hr'.2
          simpa using this
        refine ⟨hr'.1, ?_⟩
        intro t ht htn
        rcases List.mem_cons.mp ht with rfl | ht'
        · exact hne
        · exact hrest t ht' htn
      · rintro ⟨hr, hall⟩
        refine ⟨List.mem_filter.mpr ⟨hr, ?_⟩, ?_⟩
        · have : r.af_sub1 ≠ s := hall s (List.mem_cons_self s rest) h
          simpa using this
        · intro t ht htn
          exact hall t (List.mem_cons_of_mem s ht) htn
    · rw [if_pos h]
      rw [ih]
      constructor
      · rintro ⟨hr, hrest⟩
        refine ⟨hr, ?_⟩
        intro t ht htn
        rcases List.mem_cons.mp ht with rfl | ht'
        · exact absurd htn h
        · exact hrest t ht' htn
      · rintro ⟨hr, hall⟩
        exact ⟨hr, fun t ht htn => hall t (List.mem_cons_of_mem s ht) htn⟩

lemma mem_get_trials (now : Nat) (cache : List CacheRow) (r : CacheRow) :
    r ∈ get_trials_from_db now cache ↔
      (r ∈ cache ∧ r.event_name = "af_start_trial" ∧ r.event_time + HOUR ≤ now) := by
  simp [get_trials_from_db, List.mem_filter, and_assoc]

/-- C8: the confirmation pass selects exactly the cached af_start_trial rows
whose event_time is at least one hour before now; every selected entry is
forwarded, in order, whatever happened to the entries before it; a selected
entry whose forward comes back with no error has every row of its subscriber
removed from the cache, while a selected entry whose forward returns an error
is still in the cache when the pass ends. -/
theorem c8_confirmation_pass (now : Nat) (http : HttpOracle) (cache : List CacheRow) :
    (∀ r, r ∈ get_trials_from_db now cache ↔
      (r ∈ cache ∧ r.event_name = "af_start_trial" ∧ r.event_time + HOUR ≤ now)) ∧
    ((confirmed_trial_requests now http cache).2
      = (get_trials_from_db now cache).map (fun r => trialCall r.af_sub1)) ∧
    (∀ r ∈ get_trials_from_db now cache,
      (http (trialCall r.af_sub1)).2 = none →
        ∀ x ∈ (confirmed_trial_requests now http cache).1, x.af_sub1 ≠ r.af_sub1) ∧
    (∀ r ∈ get_trials_from_db now cache,
      (http (trialCall r.af_sub1)).2 ≠ none →
        r ∈ (confirmed_trial_requests now http cache).1) := by
  refine ⟨mem_get_trials now cache, ?_, ?_, ?_⟩
  · rw [confirmed_trial_requests]
    by_cases hdf : (get_trials_from_db now cache).isEmpty
    · rw [if_pos hdf]
      rw [List.isEmpty_iff] at hdf
      simp [hdf]
    · rw [if_neg hdf]
      rw [confirmLoop_calls]
      simp [List.map_map, Function.comp]
  · intro r hr herr x hx
    rw [confirmed_trial_requests] at hx
    by_cases hdf : (get_trials_from_db now cache).isEmpty
    · rw [List.isEmpty_iff] at hdf
      rw [hdf] at hr
      cases hr
    · rw [if_neg hdf] at hx
      have := (confirmLoop_mem http _ cache [] x).mp hx
      exact this.2 r.af_sub1 (List.mem_map.mpr ⟨r, hr, rfl⟩) herr
  · intro r hr herr
    rw [confirmed_trial_requests]
    by_cases hdf : (get_trials_from_db now cache).isEmpty
    · rw [if_pos hdf]
      exact ((mem_get_trials now cache r).mp hr).1
    · rw [if_neg hdf]
      rw [confirmLoop_mem]
      refine ⟨((mem_get_trials now cache r).mp hr).1, ?_⟩
      intro t ht htn hteq
      rw [← hteq] at htn
      exact herr htn

/-- Witness for c8_confirmation_pass: one settled trial in the cache, every
forward failing with a timeout — the entry is selected, forwarded and kept. -/
theorem c8_confirmation_pass_witness :
    (⟨0, 0, "af_start_trial", "s1"⟩ : CacheRow) ∈
      (confirmed_trial_requests 4000 (fun _ => (none, some ReqError.timeout))
        [⟨0, 0, "af_start_trial", "s1"⟩]).1 :=
  (c8_confirmation_pass 4000 (fun _ => (none, some ReqError.timeout))
      [⟨0, 0, "af_start_trial", "s1"⟩]).2.2.2
    ⟨0, 0, "af_start_trial", "s1"⟩ (by decide) (by decide)


lemma mem_save (now et : Nat) (en sub : String) {c : List CacheRow} {r : CacheRow}
    (h : r ∈ c) : r ∈ (save_trials_to_db now et en sub c).1 := by
  by_cases hc : (c.filter (fun x => x.af_sub1 == sub)).length = 0
  · rw [save_trials_to_db, if_pos hc]
    exact List.mem_append_left _ h
  · rw [save_trials_to_db, if_neg hc]
    exact h

lemma mem_foldl_save (now : Nat) (trial : List EventRow) :
    ∀ c r, r ∈ c →
      r ∈ trial.foldl
        (fun c e => (save_trials_to_db now e.event_time e.event_name e.af_sub1 c).1) c := by
  induction trial with
  | nil => intro c r h; simpa using h
  | cons e rest ih =>
    intro c r h
    simp only [List.foldl_cons]
    exact ih _ r (mem_save now e.event_time e.event_name e.af_sub1 h)

lemma mem_process_new_trials (now : Nat) (trial : List EventRow)
    {c : List CacheRow} {r : CacheRow} (h : r ∈ c) :
    r ∈ process_new_trials now trial c := by
  rw [process_new_trials]
  split
  · exact h
  · exact mem_foldl_save now trial c r h

lemma mem_foldl_remove (cancelled : List EventRow) :
    ∀ c r, r ∈ c → (∀ x ∈ cancelled, x.af_sub1 ≠ r.af_sub1) →
      r ∈ cancelled.foldl (fun c e => remove_trials_from_db e.af_sub1 c) c := by
  induction cancelled with
  | nil => intro c r h _; simpa using h
  | cons e rest ih =>
    intro c r h hx
    simp only [List.foldl_cons]
    apply ih
    · rw [remove_trials_from_db]
      refine List.mem_filter.mpr ⟨h, ?_⟩
      have hne : e.af_sub1 ≠ r.af_sub1 := hx e (List.mem_cons_self e rest)
      simp only [Bool.not_eq_eq_eq_not, Bool.not_true, beq_eq_false_iff_ne, ne_eq]
      exact fun heq => hne heq.symm
    · intro x hxr
      exact hx x (List.mem_cons_of_mem e hxr)

lemma mem_process_cancelled (cancelled : List EventRow)
    {c : List CacheRow} {r : CacheRow} (h : r ∈ c)
    (hx : ∀ x ∈ cancelled, x.af_sub1 ≠ r.af_sub1) :
    r ∈ process_cancelled_trials cancelled c := by
  rw [process_cancelled_trials]
  split
  · exact h
  · exact mem_foldl_remove cancelled c r h hx

lemma confirmLoop_cache_all_err (http : HttpOracle)
    (herr : ∀ s, (http (trialCall s)).2 ≠ none) :
    ∀ subs cache calls, (confirmLoop http subs cache calls).1 = cache := by
  intro subs
  induction subs with
  | nil => intro cache calls; rfl
  | cons s rest ih =>
    intro cache calls
    simp only [confirmLoop]
    rw [if_pos (herr s)]
    exact ih cache _

lemma confirmed_cache_all_err (now : Nat) (http : HttpOracle)
    (herr : ∀ s, (http (trialCall s)).2 ≠ none) (cache : List CacheRow) :
    (confirmed_trial_requests now http cache).1 = cache := by
  rw [confirmed_trial_requests]
  split
  · rfl
  · exact confirmLoop_cache_all_err http herr _ cache []

/-- One week in seconds, the retention window the spec names for the prune
pass; the source contains no such constant. -/
def WEEK : Nat := 604800

/-- C3 is false as stated: main runs no prune pass after the four categories.
In this concrete run the cache holds a row whose event_time lies a full week
before now; the run processes a non-empty DataFrame, and the stale row is
still in the cache when the run ends. -/
theorem c3_counterexample :
    (⟨0, 0, "install", "olduser"⟩ : CacheRow) ∈
      (main_run (2 * WEEK) (fun _ => (none, some ReqError.timeout))
        [⟨2 * WEEK, "install", "s1"⟩] [⟨0, 0, "install", "olduser"⟩]).cache ∧
    (⟨0, 0, "install", "olduser"⟩ : CacheRow).event_time + WEEK ≤ 2 * WEEK := by
  decide

/-- C3 (amended): no prune pass runs after the four categories are processed —
the run ends with the confirmation pass, and a cache row, however far its
event_time lies in the past, survives the run whenever its subscriber is not
among the cancelled events and every confirmation forward returns an error; in
particular rows older than one week are never deleted because of their age. -/
theorem c3_no_prune (now : Nat) (http : HttpOracle) (df : List EventRow)
    (cache0 : List CacheRow) (r : CacheRow) (hr : r ∈ cache0)
    (herr : ∀ s, (http (trialCall s)).2 ≠ none)
    (hcancel : ∀ x ∈ trialCancelledOf df, x.af_sub1 ≠ r.af_sub1) :
    r ∈ (main_run now http df cache0).cache := by
  rw [main_run]
  split
  · exact hr
  · show r ∈ (confirmed_trial_requests now http
      (process_cancelled_trials (trialCancelledOf df)
        (process_new_trials now (trialOf df) cache0))).1
    rw [confirmed_cache_all_err now http herr]
    exact mem_process_cancelled _ (mem_process_new_trials now _ hr) hcancel

/-- Witness for c3_no_prune: a week-old row of an uncancelled subscriber
survives a run whose every confirmation forward times out. -/
theorem c3_no_prune_witness :
    (⟨0, 0, "af_start_trial", "oldtrial"⟩ : CacheRow) ∈
      (main_run (2 * WEEK) (fun _ => (none, some ReqError.timeout))
        [⟨2 * WEEK, "install", "s1"⟩]
        [⟨0, 0, "af_start_trial", "oldtrial"⟩]).cache :=
  c3_no_prune (2 * WEEK) (fun _ => (none, some ReqError.timeout))
    [⟨2 * WEEK, "install", "s1"⟩] [⟨0, 0, "af_start_trial", "oldtrial"⟩]
    ⟨0, 0, "af_start_trial", "oldtrial"⟩ (by decide)
    (fun s h => by cases h) (by decide)


lemma mem_install_requests {call : TrackingCall} {l : List EventRow}
    (h : call ∈ install_requests l) : call.cnv_status = "install" := by
  rw [install_requests] at h
  split at h
  · cases h
  · obtain ⟨r, _, rfl⟩ := List.mem_map.mp h
    rfl

lemma mem_activation_requests {call : TrackingCall} {l : List EventRow}
    (h : call ∈ activation_requests l) : call.cnv_status = "trial_converted" := by
  rw [activation_requests] at h
  split at h
  · cases h
  · obtain ⟨r, _, rfl⟩ := List.mem_map.mp h
    rfl

lemma mem_confirmed_calls {now : Nat} {http : HttpOracle} {cache : List CacheRow}
    {call : TrackingCall} (h : call ∈ (confirmed_trial_requests now http cache).2) :
    call.cnv_status = "trial_started" ∧
    ∃ r ∈ get_trials_from_db now cache, call = trialCall r.af_sub1 := by
  rw [confirmed_trial_requests] at h
  split at h
  · cases h
  · rw [confirmLoop_calls] at h
    simp only [List.nil_append] at h
    obtain ⟨s, hs, rfl⟩ := List.mem_map.mp h
    obtain ⟨r, hr, rfl⟩ := List.mem_map.mp hs
    exact ⟨rfl, r, hr, rfl⟩

lemma confirmed_cache_subset {now : Nat} {http : HttpOracle} {cache : List CacheRow}
    {r : CacheRow} (h : r ∈ (confirmed_trial_requests now http cache).1) : r ∈ cache := by
  rw [confirmed_trial_requests] at h
  split at h
  · exact h
  · exact ((confirmLoop_mem http _ cache [] r).mp h).1

lemma foldl_remove_subset (cancelled : List EventRow) :
    ∀ c r, r ∈ cancelled.foldl (fun c e => remove_trials_from_db e.af_sub1 c) c →
      r ∈ c := by
  induction cancelled with
  | nil => intro c r h; simpa using h
  | cons e rest ih =>
    intro c r h
    simp only [List.foldl_cons] at h
    exact (List.mem_filter.mp (ih _ r h)).1

lemma mem_foldl_remove_not_cancelled (cancelled : List EventRow) :
    ∀ c r, r ∈ cancelled.foldl (fun c e => remove_trials_from_db e.af_sub1 c) c →
      ∀ x ∈ cancelled, r.af_sub1 ≠ x.af_sub1 := by
  induction cancelled with
  | nil => intro c r _ x hx; cases hx
  | cons e rest ih =>
    intro c r h x hx
    simp only [List.foldl_cons] at h
    rcases List.mem_cons.mp hx with rfl | hx2
    · have hr : r ∈ remove_trials_from_db x.af_sub1 c := foldl_remove_subset rest _ r h
      have := (List.mem_filter.mp hr).2
      simpa using this
    · exact ih _ r h x hx2

lemma mem_process_cancelled_not_cancelled {cancelled : List EventRow}
    {c : List CacheRow} {r : CacheRow}
    (h : r ∈ process_cancelled_trials cancelled c) :
    ∀ x ∈ cancelled, r.af_sub1 ≠ x.af_sub1 := by
  intro x hx
  rw [process_cancelled_trials] at h
  by_cases he : cancelled.isEmpty
  · rw [List.isEmpty_iff] at he
    subst he
    cases hx
  · rw [if_neg he] at h
    exact mem_foldl_remove_not_cancelled cancelled c r h x hx

/-- C4 is false as stated: a run whose batch holds exactly one
trial_renewal_cancelled event issues no outbound call at all — in particular
no cancellation notification is forwarded to the tracking endpoint. -/
theorem c4_counterexample :
    (main_run 0 (fun _ => (none, none))
      [⟨5, "trial_renewal_cancelled", "s1"⟩] []).calls = [] ∧
    trialCancelledOf [⟨5, "trial_renewal_cancelled", "s1"⟩] ≠ [] := by
  decide

/-- C4 (amended): for every trial-cancel event processed the forwarder removes
every cache row of that subscriber — no row of a cancelled subscriber is in
the cache when the run ends — but it forwards no cancellation: no outbound
call of the run carries the trial_renewal_cancelled status (the only statuses
ever sent are install, trial_converted and trial_started). -/
theorem c4_cancel_behaviour (now : Nat) (http : HttpOracle) (df : List EventRow)
    (cache0 : List CacheRow) :
    (∀ call ∈ (main_run now http df cache0).calls,
      call.cnv_status ≠ "trial_renewal_cancelled") ∧
    (∀ x ∈ trialCancelledOf df, ∀ r ∈ (main_run now http df cache0).cache,
      r.af_sub1 ≠ x.af_sub1) := by
  constructor
  · intro call hc
    rw [main_run] at hc
    split at hc
    · cases hc
    · rcases List.mem_append.mp hc with h12 | h3
      · rcases List.mem_append.mp h12 with h1 | h2
        · rw [mem_install_requests h1]
          decide
        · rw [mem_activation_requests h2]
          decide
      · rw [(mem_confirmed_calls h3).1]
        decide
  · intro x hx r hr
    rw [main_run] at hr
    split at hr
    · rename_i hdf
      rw [List.isEmpty_iff] at hdf
      subst hdf
      cases hx
    · exact mem_process_cancelled_not_cancelled (confirmed_cache_subset hr) x hx

/-- Witness for c4_cancel_behaviour on a run holding one install and one
cancellation. -/
theorem c4_cancel_behaviour_witness :
    (⟨"s2", "install", "event1"⟩ : TrackingCall).cnv_status
        ≠ "trial_renewal_cancelled" ∧
    (⟨0, 0, "install", "other"⟩ : CacheRow).af_sub1
        ≠ (⟨2, "trial_renewal_cancelled", "s1"⟩ : EventRow).af_sub1 :=
  ⟨(c4_cancel_behaviour 0 (fun _ => (none, some ReqError.timeout))
      [⟨1, "install", "s2"⟩, ⟨2, "trial_renewal_cancelled", "s1"⟩]
      [⟨0, 0, "install", "other"⟩]).1 ⟨"s2", "install", "event1"⟩ (by decide),
   (c4_cancel_behaviour 0 (fun _ => (none, some ReqError.timeout))
      [⟨1, "install", "s2"⟩, ⟨2, "trial_renewal_cancelled", "s1"⟩]
      [⟨0, 0, "install", "other"⟩]).2 ⟨2, "trial_renewal_cancelled", "s1"⟩ (by decide)
      ⟨0, 0, "install", "other"⟩ (by decide)⟩


/-- The three-row batch of the end-to-end scenario of the spec: one install,
one trial start and one trial cancellation, all for subscriber S. -/
def scenarioDf (S : String) (t1 t2 t3 : Nat) : List EventRow :=
  [⟨t1, "install", S⟩, ⟨t2, "af_start_trial", S⟩, ⟨t3, "trial_renewal_cancelled", S⟩]

/-- C9: on a batch holding an install, a trial start and a trial cancellation
for the same subscriber S (absent from the cache at the start of the run), the
very first outbound call of the run is the install forward for S; the install
is forwarded exactly once; the trial-start step inserts the S row into the
cache; the cancel step leaves no S row in the cache; and the confirmation pass
sends no trial confirmation for S in that run. -/
theorem c9_end_to_end (S : String) (t1 t2 t3 now : Nat) (http : HttpOracle)
    (cache0 : List CacheRow) (h0 : ∀ r ∈ cache0, r.af_sub1 ≠ S) :
    ((main_run now http (scenarioDf S t1 t2 t3) cache0).calls.head?
      = some (installCall S)) ∧
    (((main_run now http (scenarioDf S t1 t2 t3) cache0).calls.filter
      (fun c => c.cnv_id == S && c.cnv_status == "install")).length = 1) ∧
    ((⟨now, t2, "af_start_trial", S⟩ : CacheRow)
      ∈ process_new_trials now (trialOf (scenarioDf S t1 t2 t3)) cache0) ∧
    (∀ r ∈ process_cancelled_trials (trialCancelledOf (scenarioDf S t1 t2 t3))
        (process_new_trials now (trialOf (scenarioDf S t1 t2 t3)) cache0),
      r.af_sub1 ≠ S) ∧
    (∀ call ∈ (main_run now http (scenarioDf S t1 t2 t3) cache0).calls,
      call.cnv_status = "trial_started" → call.cnv_id ≠ S) := by
  have hinst : installOf (scenarioDf S t1 t2 t3) = [⟨t1, "install", S⟩] := rfl
  have htrial : trialOf (scenarioDf S t1 t2 t3) = [⟨t2, "af_start_trial", S⟩] := rfl
  have hcanc : trialCancelledOf (scenarioDf S t1 t2 t3)
      = [⟨t3, "trial_renewal_cancelled", S⟩] := rfl
  have hact : activationOf (scenarioDf S t1 t2 t3) = [] := rfl
  have hfilter0 : cache0.filter (fun x => x.af_sub1 == S) = [] := by
    rw [List.filter_eq_nil_iff]
    intro a ha
    simp [h0 a ha]
  have hc1 : process_new_trials now (trialOf (scenarioDf S t1 t2 t3)) cache0
      = cache0 ++ [⟨now, t2, "af_start_trial", S⟩] := by
    rw [htrial, process_new_trials]
    simp only [List.isEmpty_cons, Bool.false_eq_true, if_false, List.foldl_cons,
      List.foldl_nil]
    rw [save_trials_to_db, if_pos (by rw [hfilter0]; rfl)]
  have h4 : ∀ r ∈ process_cancelled_trials (trialCancelledOf (scenarioDf S t1 t2 t3))
      (process_new_trials now (trialOf (scenarioDf S t1 t2 t3)) cache0),
      r.af_sub1 ≠ S := by
    intro r hrm
    have := mem_process_cancelled_not_cancelled hrm
      ⟨t3, "trial_renewal_cancelled", S⟩ (by rw [hcanc]; exact List.mem_singleton_self _)
    exact this
  have hmain : main_run now http (scenarioDf S t1 t2 t3) cache0
      = ⟨(confirmed_trial_requests now http
            (process_cancelled_trials (trialCancelledOf (scenarioDf S t1 t2 t3))
              (process_new_trials now (trialOf (scenarioDf S t1 t2 t3)) cache0))).1,
          installCall S ::
            (confirmed_trial_requests now http
              (process_cancelled_trials (trialCancelledOf (scenarioDf S t1 t2 t3))
                (process_new_trials now (trialOf (scenarioDf S t1 t2 t3)) cache0))).2⟩ := by
    rw [main_run, if_neg (by rw [scenarioDf]; simp)]
    congr 1
  have hcalls3 : ∀ c ∈ (confirmed_trial_requests now http
      (process_cancelled_trials (trialCancelledOf (scenarioDf S t1 t2 t3))
        (process_new_trials now (trialOf (scenarioDf S t1 t2 t3)) cache0))).2,
      c.cnv_status = "trial_started" ∧ c.cnv_id ≠ S := by
    intro c hc
    obtain ⟨hst, r, hrm, rfl⟩ := mem_confirmed_calls hc
    refine ⟨rfl, ?_⟩
    have hrc := ((mem_get_trials now _ r).mp hrm).1
    exact h4 r hrc
  refine ⟨?_, ?_, ?_, h4, ?_⟩
  · rw [hmain]
    rfl
  · rw [hmain]
    simp only [List.filter_cons]
    have hpi : ((installCall S).cnv_id == S && (installCall S).cnv_status == "install")
        = true := by
      simp [installCall]
    rw [hpi, if_pos rfl]
    have hnil : ((confirmed_trial_requests now http
        (process_cancelled_trials (trialCancelledOf (scenarioDf S t1 t2 t3))
          (process_new_trials now (trialOf (scenarioDf S t1 t2 t3)) cache0))).2).filter
        (fun c => c.cnv_id == S && c.cnv_status == "install") = [] := by
      rw [List.filter_eq_nil_iff]
      intro c hc
      have hst := (hcalls3 c hc).1
      simp [hst]
    rw [hnil]
    rfl
  · rw [hc1]
    exact List.mem_append_right _ (List.mem_singleton_self _)
  · intro call hcall hst
    rw [hmain] at hcall
    rcases List.mem_cons.mp hcall with rfl | h3
    · have hne : ("install" : String) ≠ "trial_started" := by decide
      exact absurd hst hne
    · exact (hcalls3 call h3).2

/-- Witness for c9_end_to_end with subscriber subS, an empty starting cache
and every forward timing out. -/
theorem c9_end_to_end_witness :
    ((main_run 7 (fun _ => (none, some ReqError.timeout))
        (scenarioDf "subS" 1 2 3) []).calls.head? = some (installCall "subS")) ∧
    (((main_run 7 (fun _ => (none, some ReqError.timeout))
        (scenarioDf "subS" 1 2 3) []).calls.filter
      (fun c => c.cnv_id == "subS" && c.cnv_status == "install")).length = 1) ∧
    ((⟨7, 2, "af_start_trial", "subS"⟩ : CacheRow)
      ∈ process_new_trials 7 (trialOf (scenarioDf "subS" 1 2 3)) []) ∧
    (∀ r ∈ process_cancelled_trials (trialCancelledOf (scenarioDf "subS" 1 2 3))
        (process_new_trials 7 (trialOf (scenarioDf "subS" 1 2 3)) []),
      r.af_sub1 ≠ "subS") ∧
    (∀ call ∈ (main_run 7 (fun _ => (none, some ReqError.timeout))
        (scenarioDf "subS" 1 2 3) []).calls,
      call.cnv_status = "trial_started" → call.cnv_id ≠ "subS") :=
  c9_end_to_end "subS" 1 2 3 7 (fun _ => (none, some ReqError.timeout)) []
    (by intro r hr; cases hr)

end ClickHouseEventProcessor
